import Mathlib

/-!
Shallow embedding of the `gopengraph` library (BloodHound OpenGraph builder):
the `properties`, `node`, `edge` packages and the `OpenGraph` container with
its mutators (`AddNode`, `AddEdge`, `RemoveNodeByID`), queries
(`GetNode`, `GetEdgesFromNode`), traversal (`FindPaths`) and JSON export
(`ExportJSON`), together with an import function modelled from the spec
(the repository ships no importer).  Go maps are embedded as association
lists, Go slices as lists, mutation as explicit state passing, and the
marshalled JSON document as an inductive `Json` tree (object key order
abstracted).  A Go nil slice returned by `FindPaths` is `none`; a non-nil
slice is `some`.
-/

namespace Gopengraph

/-- JSON values as produced by the Go `encoding/json` marshaller for the
document shapes this library emits.  Numbers are integers here: no source
path relevant to the claims produces fractional output. -/
inductive Json where
  | null
  | bool (b : Bool)
  | num (n : Int)
  | str (s : String)
  | arr (elems : List Json)
  | obj (fields : List (String × Json))

/-- Field lookup in a JSON object (`none` on non-objects or missing keys). -/
def Json.objLookup : Json → String → Option Json
  | .obj fields, k => (fields.find? (fun p => p.1 == k)).map (fun p => p.2)
  | _, _ => none

/-- `properties.Properties`: the Go `map[string]interface{}` of
JSON-marshallable scalar/slice values, embedded as an association list of
JSON values. -/
abbrev Properties := List (String × Json)

/-- `Properties.ToDict` hands back a copy of the property map; with value
semantics the copy is the map itself. -/
def Properties.ToDict (p : Properties) : Properties := p

/-- `node.Node`. -/
structure Node where
  id : String
  kinds : List String
  properties : Properties

/-- `Node.HasKind`: linear scan of the kinds for an equal label. -/
def Node.HasKind (n : Node) (kind : String) : Bool :=
  n.kinds.contains kind

/-- `Node.AddKind`: appends the kind only when not already present. -/
def Node.AddKind (n : Node) (kind : String) : Node :=
  if n.HasKind kind then n else { n with kinds := n.kinds ++ [kind] }

/-- `Node.Equal`: nodes are equal iff their ids match. -/
def Node.Equal (n other : Node) : Bool :=
  n.id == other.id

/-- `Node.ToDict`: the export record `{id, kinds, properties}`. -/
def Node.ToDict (n : Node) : Json :=
  .obj [("id", .str n.id),
        ("kinds", .arr (n.kinds.map Json.str)),
        ("properties", .obj n.properties.ToDict)]

/-- `edge.Edge`. -/
structure Edge where
  startNodeID : String
  endNodeID : String
  kind : String
  properties : Properties

/-- `Edge.GetStartNodeID`. -/
def Edge.GetStartNodeID (e : Edge) : String := e.startNodeID

/-- `Edge.GetEndNodeID`. -/
def Edge.GetEndNodeID (e : Edge) : String := e.endNodeID

/-- `Edge.GetKind`. -/
def Edge.GetKind (e : Edge) : String := e.kind

/-- `Edge.Equal`: equality on the (start, end, kind) triple; properties are
not consulted. -/
def Edge.Equal (e other : Edge) : Bool :=
  e.startNodeID == other.startNodeID &&
  e.endNodeID == other.endNodeID &&
  e.kind == other.kind

/-- `Edge.ToDict`: the export record; the `properties` key is added only when
the property map is non-empty. -/
def Edge.ToDict (e : Edge) : Json :=
  .obj ([("kind", .str e.kind),
         ("start", .obj [("value", .str e.startNodeID), ("match_by", .str "id")]),
         ("end", .obj [("value", .str e.endNodeID), ("match_by", .str "id")])] ++
        (if 0 < e.properties.ToDict.length then
           [("properties", .obj e.properties.ToDict)]
         else []))

/-- The `OpenGraph` container: `nodes` is a Go map id → Node (association
list with unique keys in every state the Go API can reach), `edges` an
ordered slice, `sourceKind` the stamp label. -/
structure OpenGraph where
  nodes : List (String × Node)
  edges : List Edge
  sourceKind : String

/-- `NewOpenGraph`. -/
def NewOpenGraph (sourceKind : String) : OpenGraph :=
  { nodes := [], edges := [], sourceKind := sourceKind }

/-- `GetNode`: map lookup, `none` models the nil pointer. -/
def OpenGraph.GetNode (g : OpenGraph) (id : String) : Option Node :=
  (g.nodes.find? (fun p => p.1 == id)).map (fun p => p.2)

/-- Go map assignment `m[k] = v` on the nodes map. -/
def mapSet (m : List (String × Node)) (k : String) (v : Node) :
    List (String × Node) :=
  if m.any (fun p => p.1 == k) then
    m.map (fun p => if p.1 == k then (k, v) else p)
  else m ++ [(k, v)]

/-- `AddNodeWithoutValidation`. -/
def OpenGraph.AddNodeWithoutValidation (g : OpenGraph) (n : Node) :
    Bool × OpenGraph :=
  (true, { g with nodes := mapSet g.nodes n.id n })

/-- `AddNode`: rejects an already-present id, otherwise stamps the graph
non-empty `sourceKind` onto the node when missing and stores it. -/
def OpenGraph.AddNode (g : OpenGraph) (n : Node) : Bool × OpenGraph :=
  if (g.GetNode n.id).isSome then (false, g)
  else
    let n' := if g.sourceKind != "" && !(n.HasKind g.sourceKind) then
                n.AddKind g.sourceKind
              else n
    g.AddNodeWithoutValidation n'

/-- `AddEdgeWithoutValidation`. -/
def OpenGraph.AddEdgeWithoutValidation (g : OpenGraph) (e : Edge) :
    Bool × OpenGraph :=
  (true, { g with edges := g.edges ++ [e] })

/-- `AddEdge`: rejects edges whose endpoints are unregistered or that
duplicate a stored edge under triple equality; else appends. -/
def OpenGraph.AddEdge (g : OpenGraph) (e : Edge) : Bool × OpenGraph :=
  if !(g.GetNode e.startNodeID).isSome then (false, g)
  else if !(g.GetNode e.endNodeID).isSome then (false, g)
  else if g.edges.any (fun x => x.Equal e) then (false, g)
  else g.AddEdgeWithoutValidation e

/-- `RemoveNodeByID`: deletes the map entry and filters out every edge whose
start or end references the id. -/
def OpenGraph.RemoveNodeByID (g : OpenGraph) (id : String) : Bool × OpenGraph :=
  if !(g.GetNode id).isSome then (false, g)
  else
    (true, { g with
               nodes := g.nodes.filter (fun p => p.1 != id),
               edges := g.edges.filter
                 (fun e => e.startNodeID != id && e.endNodeID != id) })

/-- `GetEdgesFromNode`: edges whose start equals the id, in insertion order. -/
def OpenGraph.GetEdgesFromNode (g : OpenGraph) (id : String) : List Edge :=
  g.edges.filter (fun e => e.startNodeID == id)

/-- `GetNodeCount`. -/
def OpenGraph.GetNodeCount (g : OpenGraph) : Nat := g.nodes.length

/-- `GetEdgeCount`. -/
def OpenGraph.GetEdgeCount (g : OpenGraph) : Nat := g.edges.length

/-- One step of the inner `for` loop of `FindPaths` over an outgoing edge,
transforming the state (found paths, visited set, queue); the Go
`visited[nextID]` map lookup is the membership test. -/
def processEdge (endID : String) (curPath : List String)
    (st : List (List String) × List String × List (String × List String))
    (e : Edge) :
    List (List String) × List String × List (String × List String) :=
  let nextID := e.endNodeID
  if nextID ∈ st.2.1 then st
  else
    let newPath := curPath ++ [nextID]
    if nextID = endID then (st.1 ++ [newPath], st.2.1, st.2.2)
    else (st.1, st.2.1 ++ [nextID], st.2.2 ++ [(nextID, newPath)])

/-- Termination measure helper: how many of the candidate ids (all edge end
ids of the graph) are not yet visited. -/
def unvisitedCount (cands visited : List String) : Nat :=
  (cands.filter (fun c => decide (c ∉ visited))).length

/-- The `for len(queue) > 0 && len(queue[0].path) <= maxDepth` loop of
`FindPaths`. -/
def bfsLoop (g : OpenGraph) (endID : String) (maxDepth : Int)
    (paths : List (List String)) (visited : List String)
    (queue : List (String × List String)) : List (List String) :=
  match queue with
  | [] => paths
  | cur :: rest =>
    if (cur.2.length : Int) ≤ maxDepth then
      let st := (g.GetEdgesFromNode cur.1).foldl
        (processEdge endID cur.2) (paths, visited, rest)
      bfsLoop g endID maxDepth st.1 st.2.1 st.2.2
    else paths
termination_by unvisitedCount (g.edges.map Edge.endNodeID) visited + queue.length
decreasing_by
  have filterMono : ∀ (p q : String → Bool) (l : List String),
      (∀ c, p c = true → q c = true) →
      (l.filter p).length ≤ (l.filter q).length := by
    intro p q l hpq
    induction l with
    | nil => simp
    | cons c cs ih =>
      cases hc : p c with
      | true =>
        rw [List.filter_cons_of_pos hc, List.filter_cons_of_pos (hpq c hc)]
        simpa using ih
      | false =>
        rw [List.filter_cons_of_neg (by simp [hc])]
        cases hq : q c with
        | true =>
          rw [List.filter_cons_of_pos hq]
          exact Nat.le_succ_of_le ih
        | false =>
          rw [List.filter_cons_of_neg (by simp [hq])]
          exact ih
  have dec : ∀ (cs vis : List String) (x : String), x ∈ cs → x ∉ vis →
      unvisitedCount cs (vis ++ [x]) + 1 ≤ unvisitedCount cs vis := by
    intro cs vis x hx hv
    induction cs with
    | nil => cases hx
    | cons c cs ih =>
      unfold unvisitedCount at ih ⊢
      by_cases hcx : c = x
      · subst hcx
        rw [List.filter_cons_of_neg (by simp), List.filter_cons_of_pos (by simp [hv])]
        have hmono := filterMono (fun a => decide (a ∉ vis ++ [c]))
          (fun a => decide (a ∉ vis)) cs ?_
        · simp only [List.length_cons]
          omega
        · intro a ha
          simp only [decide_eq_true_eq, List.mem_append] at ha ⊢
          intro hav
          exact ha (Or.inl hav)
      · have hx' : x ∈ cs := by
          rcases List.mem_cons.mp hx with h | h
          · exact absurd h.symm hcx
          · exact h
        by_cases hcv : c ∈ vis
        · rw [List.filter_cons_of_neg (by simp [List.mem_append, hcv]),
            List.filter_cons_of_neg (by simp [hcv])]
          exact ih hx'
        · rw [List.filter_cons_of_pos (by simp [List.mem_append, hcv, hcx]),
            List.filter_cons_of_pos (by simp [hcv])]
          simp only [List.length_cons]
          have := ih hx'
          omega
  have step : ∀ (curPath : List String) (e : Edge)
      (st : List (List String) × List String × List (String × List String)),
      e.endNodeID ∈ g.edges.map Edge.endNodeID →
      unvisitedCount (g.edges.map Edge.endNodeID)
          (processEdge endID curPath st e).2.1 +
        (processEdge endID curPath st e).2.2.length ≤
      unvisitedCount (g.edges.map Edge.endNodeID) st.2.1 + st.2.2.length := by
    intro curPath e st he
    unfold processEdge
    by_cases hvis : e.endNodeID ∈ st.2.1
    · rw [if_pos hvis]
    · rw [if_neg hvis]
      by_cases hend : e.endNodeID = endID
      · rw [if_pos hend]
      · rw [if_neg hend]
        have := dec (g.edges.map Edge.endNodeID) st.2.1 e.endNodeID he hvis
        simp only [List.length_append, List.length_cons, List.length_nil]
        omega
  have fold : ∀ (es : List Edge)
      (st : List (List String) × List String × List (String × List String)),
      (∀ e ∈ es, e.endNodeID ∈ g.edges.map Edge.endNodeID) →
      unvisitedCount (g.edges.map Edge.endNodeID)
          (es.foldl (processEdge endID cur.2) st).2.1 +
        (es.foldl (processEdge endID cur.2) st).2.2.length ≤
      unvisitedCount (g.edges.map Edge.endNodeID) st.2.1 + st.2.2.length := by
    intro es
    induction es with
    | nil => intro st _; simp
    | cons e es ih =>
      intro st hmem
      simp only [List.foldl_cons]
      have h1 := ih (processEdge endID cur.2 st e)
        (fun x hx => hmem x (List.mem_cons_of_mem e hx))
      have h2 := step cur.2 e st (hmem e (List.mem_cons_self e es))
      omega
  simp only [OpenGraph.GetEdgesFromNode]
  have hmem : ∀ e ∈ g.edges.filter (fun e => e.startNodeID == cur.1),
      e.endNodeID ∈ g.edges.map Edge.endNodeID := by
    intro e he
    exact List.mem_map_of_mem Edge.endNodeID (List.mem_of_mem_filter he)
  have hle := fold (g.edges.filter (fun e => e.startNodeID == cur.1))
    (paths, visited, rest) hmem
  have heq : unvisitedCount (g.edges.map Edge.endNodeID)
      (paths, visited, rest).2.1 + (paths, visited, rest).2.2.length
      = unvisitedCount (g.edges.map Edge.endNodeID) visited + rest.length := rfl
  rw [heq] at hle
  simp only [List.length_cons]
  omega

/-- `FindPaths`: BFS path enumeration.  The Go function returns a nil slice
(`none`) when an endpoint is unknown and also — because `var paths
[][]string` stays nil when nothing is appended — when the search finds no
path; a non-nil result is `some`. -/
def OpenGraph.FindPaths (g : OpenGraph) (startID endID : String)
    (maxDepth : Int) : Option (List (List String)) :=
  if !(g.GetNode startID).isSome then none
  else if !(g.GetNode endID).isSome then none
  else if startID == endID then some [[startID]]
  else
    let paths := bfsLoop g endID maxDepth [] [startID] [(startID, [startID])]
    if paths.isEmpty then none else some paths

/-- The node values of the graph, in map order. -/
def OpenGraph.nodeValues (g : OpenGraph) : List Node :=
  g.nodes.map (fun p => p.2)

/-- `ExportJSON`: the marshalled document.  `nodes` and `edges` are built
from slices initialised with `make(..., 0)`, hence always arrays; the
`metadata` object is added iff requested and `sourceKind` is non-empty. -/
def OpenGraph.ExportJSON (g : OpenGraph) (includeMetadata : Bool) : Json :=
  .obj ([("graph",
          .obj [("nodes", .arr (g.nodeValues.map Node.ToDict)),
                ("edges", .arr (g.edges.map Edge.ToDict))])] ++
        (if includeMetadata && g.sourceKind != "" then
           [("metadata", .obj [("source_kind", .str g.sourceKind)])]
         else []))

/-- Parse a JSON string value. -/
def parseString : Json → Option String
  | .str s => some s
  | _ => none

/-- Parse a list of JSON string values. -/
def parseKinds : List Json → Option (List String)
  | [] => some []
  | j :: rest => do
    let s ← parseString j
    let ss ← parseKinds rest
    pure (s :: ss)

/-- Modelled from the spec: the repository ships no import implementation;
this parses one node record `{id, kinds, properties}` of the export
document. -/
def parseNodeRec (j : Json) : Option Node := do
  let idJ ← j.objLookup "id"
  let id ← parseString idJ
  let kindsJ ← j.objLookup "kinds"
  match kindsJ with
  | .arr ks => do
    let kinds ← parseKinds ks
    match j.objLookup "properties" with
    | some (.obj fields) => pure { id := id, kinds := kinds, properties := fields }
    | _ => none
  | _ => none

/-- Parse an edge endpoint object `{value, match_by}`. -/
def parseEndpoint (j : Json) : Option String := do
  let v ← j.objLookup "value"
  parseString v

/-- Modelled from the spec: parses one edge record
`{kind, start, end, properties?}` of the export document; a missing
`properties` key yields an empty property map. -/
def parseEdgeRec (j : Json) : Option Edge := do
  let kJ ← j.objLookup "kind"
  let kind ← parseString kJ
  let sJ ← j.objLookup "start"
  let s ← parseEndpoint sJ
  let eJ ← j.objLookup "end"
  let en ← parseEndpoint eJ
  match j.objLookup "properties" with
  | some (.obj fields) =>
      pure { startNodeID := s, endNodeID := en, kind := kind, properties := fields }
  | none =>
      pure { startNodeID := s, endNodeID := en, kind := kind, properties := [] }
  | some _ => none

/-- Parse every element of a JSON array with the given element parser. -/
def parseList {α : Type} (f : Json → Option α) : List Json → Option (List α)
  | [] => some []
  | j :: rest => do
    let a ← f j
    let as ← parseList f rest
    pure (a :: as)

/-- Modelled from the spec: the repository source has no import function
(only `ExportJSON`); spec section 6 describes import as the structural
inverse of export — parse and register every node first, then every edge
(through the validated `AddNode`/`AddEdge` mutators, since edge registration
requires both endpoints to pre-exist), then take `sourceKind` from
`metadata.source_kind` when that key is present. -/
def importJson (j : Json) : Option OpenGraph := do
  let graphJ ← j.objLookup "graph"
  let nodesJ ← graphJ.objLookup "nodes"
  let edgesJ ← graphJ.objLookup "edges"
  match nodesJ, edgesJ with
  | .arr ns, .arr es => do
    let nodes ← parseList parseNodeRec ns
    let edges ← parseList parseEdgeRec es
    let g1 := nodes.foldl (fun g n => (g.AddNode n).2) (NewOpenGraph "")
    let g2 := edges.foldl (fun g e => (g.AddEdge e).2) g1
    let sk := match j.objLookup "metadata" with
      | some m =>
        match m.objLookup "source_kind" with
        | some (.str s) => s
        | _ => ""
      | none => ""
    pure { g2 with sourceKind := sk }
  | _, _ => none

/-- Decidable chain predicate: consecutive ids are connected by a stored
edge (directed). -/
def OpenGraph.hasEdge (g : OpenGraph) (a b : String) : Bool :=
  g.edges.any (fun e => e.startNodeID == a && e.endNodeID == b)

/-- A list of ids forms a directed edge-path through the graph. -/
def IsChain (g : OpenGraph) : List String → Bool
  | [] => true
  | [_] => true
  | a :: b :: rest => g.hasEdge a b && IsChain g (b :: rest)

/-- The nodes map is a faithful Go map image: keys are unique and each entry
is keyed by its node id. -/
def OpenGraph.NodesWF (g : OpenGraph) : Prop :=
  (g.nodes.map (fun p => p.1)).Nodup ∧ ∀ p ∈ g.nodes, p.1 = p.2.id

instance (g : OpenGraph) : Decidable g.NodesWF := by
  unfold OpenGraph.NodesWF
  infer_instance

/-- Node with the given id and kinds and no properties (sample data). -/
def mkNode (id : String) (kinds : List String) : Node :=
  { id := id, kinds := kinds, properties := [] }

/-- Sample graph: two registered nodes, no edges. -/
def gPair : OpenGraph :=
  { nodes := [("a", mkNode "a" ["T"]), ("b", mkNode "b" ["T"])],
    edges := [], sourceKind := "" }

/-- Sample graph: three nodes chained a → b → c. -/
def gChain : OpenGraph :=
  { nodes := [("a", mkNode "a" []), ("b", mkNode "b" []), ("c", mkNode "c" [])],
    edges := [{ startNodeID := "a", endNodeID := "b", kind := "K", properties := [] },
              { startNodeID := "b", endNodeID := "c", kind := "K", properties := [] }],
    sourceKind := "" }

/-- Sample graph holding the same (start, end, kind) edge twice — a state the
Go API reaches through `AddEdgeWithoutValidation`. -/
def gDup : OpenGraph :=
  { nodes := [("a", mkNode "a" []), ("b", mkNode "b" [])],
    edges := [{ startNodeID := "a", endNodeID := "b", kind := "K", properties := [] },
              { startNodeID := "a", endNodeID := "b", kind := "K", properties := [] }],
    sourceKind := "S" }

/-- Sample well-formed graph with a sourceKind, a property-carrying node and
edge. -/
def gClean : OpenGraph :=
  { nodes := [("a", { id := "a", kinds := ["Person", "S"],
                      properties := [("name", Json.str "A")] }),
              ("b", mkNode "b" ["S"])],
    edges := [{ startNodeID := "a", endNodeID := "b", kind := "Knows",
                properties := [("w", Json.num 1)] }],
    sourceKind := "S" }

/-- Property of the paths `FindPaths` emits: an edge-chain from s to endID,
starting at s, ending at endID, simple, of at most maxDepth + 1 ids. -/
def GoodPath (g : OpenGraph) (s endID : String) (maxDepth : Int)
    (p : List String) : Prop :=
  IsChain g p = true ∧ p.head? = some s ∧ p.getLast? = some endID ∧
  p.Nodup ∧ (p.length : Int) ≤ maxDepth + 1

/-- Invariant of a queue entry: its path is a simple chain from s to the
entry id whose ids are all visited. -/
def QueueInv (g : OpenGraph) (s : String) (visited : List String)
    (q : String × List String) : Prop :=
  IsChain g q.2 = true ∧ q.2.head? = some s ∧ q.2.getLast? = some q.1 ∧
  q.2.Nodup ∧ ∀ x ∈ q.2, x ∈ visited

/-! ## Helper lemmas -/

/-- `AddKind` never changes the node id. -/
theorem addKind_id (n : Node) (k : String) : (n.AddKind k).id = n.id := by
  unfold Node.AddKind
  split <;> rfl

/-- `AddKind` never changes the node properties. -/
theorem addKind_properties (n : Node) (k : String) :
    (n.AddKind k).properties = n.properties := by
  unfold Node.AddKind
  split <;> rfl

/-- Setting an absent key in the nodes map appends the binding. -/
theorem mapSet_absent (m : List (String × Node)) (k : String) (v : Node)
    (h : m.find? (fun p => p.1 == k) = none) :
    mapSet m k v = m ++ [(k, v)] := by
  unfold mapSet
  rw [if_neg]
  rw [List.find?_eq_none] at h
  simp only [List.any_eq_true, not_exists, not_and]
  intro p hp
  simpa using h p hp

/-- Looking up an id absent from `g` right after `AddNodeWithoutValidation`
of a node with that id returns that node. -/
theorem getNode_addWithout (g : OpenGraph) (v : Node)
    (h : (g.GetNode v.id).isSome = false) :
    (g.AddNodeWithoutValidation v).2.GetNode v.id = some v := by
  have hfind : g.nodes.find? (fun p => p.1 == v.id) = none := by
    cases hf : g.nodes.find? (fun p => p.1 == v.id) with
    | none => rfl
    | some p =>
      unfold OpenGraph.GetNode at h
      rw [hf] at h
      simp at h
  unfold OpenGraph.AddNodeWithoutValidation OpenGraph.GetNode
  rw [mapSet_absent g.nodes v.id v hfind]
  simp [List.find?_append, hfind]

/-! ## Claim C3 -/

/-- C3: `AddEdge(e)` returns failure and leaves the graph unchanged when the
start id or end id is not a key of the node map, or when some stored edge
equals e on the (start, end, kind) triple (properties play no role);
otherwise it returns success and appends e at the end of the edge list,
preserving insertion order. -/
theorem C3_addEdge_validation (g : OpenGraph) (e : Edge) :
    (((g.GetNode e.startNodeID).isSome = false ∨
      (g.GetNode e.endNodeID).isSome = false ∨
      ∃ x ∈ g.edges, x.Equal e = true) →
        g.AddEdge e = (false, g)) ∧
    ((g.GetNode e.startNodeID).isSome = true →
     (g.GetNode e.endNodeID).isSome = true →
     (∀ x ∈ g.edges, x.Equal e = false) →
        g.AddEdge e = (true, { g with edges := g.edges ++ [e] })) := by
  constructor
  · rintro (h | h | ⟨x, hx, hxe⟩) <;> unfold OpenGraph.AddEdge
    · rw [if_pos (by simp [h])]
    · by_cases hs : (g.GetNode e.startNodeID).isSome = true
      · rw [if_neg (by simp [hs]), if_pos (by simp [h])]
      · rw [if_pos (by simpa using hs)]
    · by_cases hs : (g.GetNode e.startNodeID).isSome = true
      · by_cases ht : (g.GetNode e.endNodeID).isSome = true
        · rw [if_neg (by simp [hs]), if_neg (by simp [ht]),
            if_pos (List.any_eq_true.mpr ⟨x, hx, hxe⟩)]
        · rw [if_neg (by simp [hs]), if_pos (by simpa using ht)]
      · rw [if_pos (by simpa using hs)]
  · intro hs ht hdup
    unfold OpenGraph.AddEdge
    rw [if_neg (by simp [hs]), if_neg (by simp [ht]), if_neg]
    · rfl
    · simp only [List.any_eq_true, not_exists, not_and]
      intro x hx
      simp [hdup x hx]

/-- C3 witness: in the chain graph, adding the duplicate a→b edge (with
different properties) fails, and adding a fresh a→c edge succeeds and is
appended at the end. -/
theorem C3_witness :
    ((gChain.GetNode "a").isSome = true ∧
     (gChain.GetNode "b").isSome = true ∧
     (∃ x ∈ gChain.edges,
        x.Equal { startNodeID := "a", endNodeID := "b", kind := "K",
                  properties := [("w", Json.num 2)] } = true) ∧
     gChain.AddEdge { startNodeID := "a", endNodeID := "b", kind := "K",
                      properties := [("w", Json.num 2)] } = (false, gChain)) ∧
    ((∀ x ∈ gChain.edges,
        x.Equal { startNodeID := "a", endNodeID := "c", kind := "K",
                  properties := [] } = false) ∧
     gChain.AddEdge { startNodeID := "a", endNodeID := "c", kind := "K",
                      properties := [] } =
       (true, { gChain with edges := gChain.edges ++
          [{ startNodeID := "a", endNodeID := "c", kind := "K",
             properties := [] }] })) := by
  refine ⟨⟨rfl, rfl, ⟨gChain.edges.head (by simp [gChain]), by simp [gChain], rfl⟩, ?_⟩,
          ⟨by decide, ?_⟩⟩
  · exact (C3_addEdge_validation gChain _).1
      (Or.inr (Or.inr ⟨gChain.edges.head (by simp [gChain]), by simp [gChain], rfl⟩))
  · exact (C3_addEdge_validation gChain _).2 rfl rfl (by decide)

/-! ## Claim C4 -/

/-- C4: when the graph already contains a node with the given id, a second
`AddNode` of any node carrying that id returns failure and is a no-op —
the stored node and both collections are unchanged. -/
theorem C4_addNode_duplicate (g : OpenGraph) (n : Node)
    (h : (g.GetNode n.id).isSome = true) :
    g.AddNode n = (false, g) := by
  unfold OpenGraph.AddNode
  rw [if_pos h]

/-- C4 witness: re-adding id "a" (with different kinds) to the pair graph
fails and leaves the graph unchanged. -/
theorem C4_witness :
    (gPair.GetNode "a").isSome = true ∧
    gPair.AddNode (mkNode "a" ["Other"]) = (false, gPair) := by
  exact ⟨rfl, C4_addNode_duplicate gPair (mkNode "a" ["Other"]) rfl⟩

/-! ## Claim C5 -/

/-- C5: in a graph whose sourceKind is non-empty, every successful
`AddNode(n)` stores a node carrying the sourceKind among its kinds: appended
exactly once at the end when n lacked it, and with the kinds list unchanged
(no duplicate introduced) when n already carried it; properties are
untouched. -/
theorem C5_sourceKind_stamp (g : OpenGraph) (n : Node)
    (hsk : g.sourceKind ≠ "") (hsucc : (g.AddNode n).1 = true) :
    ∃ n', (g.AddNode n).2.GetNode n.id = some n' ∧
      n'.HasKind g.sourceKind = true ∧
      n'.properties = n.properties ∧
      (n.HasKind g.sourceKind = true → n'.kinds = n.kinds) ∧
      (n.HasKind g.sourceKind = false →
        n'.kinds = n.kinds ++ [g.sourceKind] ∧
        n'.kinds.count g.sourceKind = 1) := by
  have habs : (g.GetNode n.id).isSome = false := by
    by_contra hcon
    rw [Bool.not_eq_false] at hcon
    rw [C4_addNode_duplicate g n hcon] at hsucc
    cases hsucc
  unfold OpenGraph.AddNode
  rw [if_neg (by simp [habs])]
  by_cases hk : n.HasKind g.sourceKind = true
  · have hcond : (g.sourceKind != "" && !n.HasKind g.sourceKind) = false := by
      simp [hk]
    rw [hcond]
    simp only [Bool.false_eq_true, if_false]
    have hget : (g.AddNodeWithoutValidation n).2.GetNode n.id = some n :=
      getNode_addWithout g n habs
    exact ⟨n, hget, hk, rfl, fun _ => rfl,
      fun hcon => absurd hk (by simp [hcon])⟩
  · rw [Bool.not_eq_true] at hk
    have hcond : (g.sourceKind != "" && !n.HasKind g.sourceKind) = true := by
      simp [hk, bne_iff_ne, hsk]
    rw [hcond]
    simp only [if_true]
    have hid : (n.AddKind g.sourceKind).id = n.id := addKind_id n g.sourceKind
    have hkinds : (n.AddKind g.sourceKind).kinds = n.kinds ++ [g.sourceKind] := by
      unfold Node.AddKind
      rw [if_neg (by simp [hk])]
    have hget : (g.AddNodeWithoutValidation (n.AddKind g.sourceKind)).2.GetNode
        n.id = some (n.AddKind g.sourceKind) := by
      rw [← hid]
      exact getNode_addWithout g (n.AddKind g.sourceKind) (by rwa [hid])
    have hhas : (n.AddKind g.sourceKind).HasKind g.sourceKind = true := by
      unfold Node.HasKind
      rw [hkinds]
      simp
    have hnotmem : g.sourceKind ∉ n.kinds := by
      intro hmem
      have hcontra : n.HasKind g.sourceKind = true := by
        unfold Node.HasKind
        simpa [List.elem_eq_mem] using hmem
      rw [hk] at hcontra
      cases hcontra
    have hcount : ((n.AddKind g.sourceKind).kinds).count g.sourceKind = 1 := by
      rw [hkinds]
      simp [List.count_append, List.count_eq_zero.mpr hnotmem]
    exact ⟨n.AddKind g.sourceKind, hget, hhas, addKind_properties n g.sourceKind,
      fun hcon => absurd hcon (by simp [hk]),
      fun _ => ⟨hkinds, hcount⟩⟩

/-- C5 witness: adding a node without the "S" kind to a sourceKind-"S" graph
stores it with "S" appended exactly once. -/
theorem C5_witness :
    ("S" : String) ≠ "" ∧ ((NewOpenGraph "S").AddNode (mkNode "x" ["K"])).1 = true ∧
    (∃ n', ((NewOpenGraph "S").AddNode (mkNode "x" ["K"])).2.GetNode "x" = some n' ∧
      n'.HasKind "S" = true ∧
      n'.properties = (mkNode "x" ["K"]).properties ∧
      ((mkNode "x" ["K"]).HasKind "S" = true → n'.kinds = (mkNode "x" ["K"]).kinds) ∧
      ((mkNode "x" ["K"]).HasKind "S" = false →
        n'.kinds = (mkNode "x" ["K"]).kinds ++ ["S"] ∧
        n'.kinds.count "S" = 1)) :=
  ⟨by decide, rfl,
   C5_sourceKind_stamp (NewOpenGraph "S") (mkNode "x" ["K"]) (by decide) rfl⟩

/-! ## Claim C6 -/

/-- C6: `RemoveNodeByID(id)` fails and changes nothing when id is not
registered; when registered it succeeds, the node is gone, and no surviving
edge has id as its start or end. -/
theorem C6_removeNode (g : OpenGraph) (id : String) :
    (g.GetNode id = none → g.RemoveNodeByID id = (false, g)) ∧
    ((g.GetNode id).isSome = true →
      (g.RemoveNodeByID id).1 = true ∧
      (g.RemoveNodeByID id).2.GetNode id = none ∧
      ∀ e ∈ (g.RemoveNodeByID id).2.edges,
        e.startNodeID ≠ id ∧ e.endNodeID ≠ id) := by
  constructor
  · intro h
    unfold OpenGraph.RemoveNodeByID
    rw [if_pos (by simp [h])]
  · intro h
    unfold OpenGraph.RemoveNodeByID
    rw [if_neg (by simp [h])]
    refine ⟨rfl, ?_, ?_⟩
    · unfold OpenGraph.GetNode
      have hfind : (g.nodes.filter (fun p => p.1 != id)).find?
          (fun p => p.1 == id) = none := by
        rw [List.find?_eq_none]
        intro p hp
        have h2 := (List.mem_filter.mp hp).2
        rw [bne_iff_ne] at h2
        simp [h2]
      rw [hfind]
      rfl
    · intro e he
      have := (List.mem_filter.mp he).2
      simp only [Bool.and_eq_true, bne_iff_ne, ne_eq] at this
      exact this

/-- C6 witness: removing "b" from the chain graph succeeds, deletes the
node, and prunes both incident edges; removing an unknown id fails. -/
theorem C6_witness :
    (gChain.GetNode "zz" = none ∧ gChain.RemoveNodeByID "zz" = (false, gChain)) ∧
    ((gChain.GetNode "b").isSome = true ∧
     (gChain.RemoveNodeByID "b").1 = true ∧
     (gChain.RemoveNodeByID "b").2.GetNode "b" = none ∧
     ∀ e ∈ (gChain.RemoveNodeByID "b").2.edges,
       e.startNodeID ≠ "b" ∧ e.endNodeID ≠ "b") := by
  refine ⟨⟨rfl, (C6_removeNode gChain "zz").1 rfl⟩,
          ⟨rfl, (C6_removeNode gChain "b").2 rfl⟩⟩

/-! ## Claim C7 -/

/-- C7: every exported document holds `graph.nodes` and `graph.edges` as
arrays (empty arrays, never null or absent, on an empty graph), and holds
the top-level `metadata` key — an object whose `source_kind` equals the
graph sourceKind — iff metadata was requested and the sourceKind is
non-empty. -/
theorem C7_export_shape (g : OpenGraph) (includeMetadata : Bool) :
    ((g.ExportJSON includeMetadata).objLookup "graph").bind
        (fun gj => gj.objLookup "nodes") =
      some (.arr (g.nodeValues.map Node.ToDict)) ∧
    ((g.ExportJSON includeMetadata).objLookup "graph").bind
        (fun gj => gj.objLookup "edges") =
      some (.arr (g.edges.map Edge.ToDict)) ∧
    (g.ExportJSON includeMetadata).objLookup "metadata" =
      (if includeMetadata && g.sourceKind != "" then
         some (.obj [("source_kind", .str g.sourceKind)])
       else none) := by
  unfold OpenGraph.ExportJSON
  by_cases hm : (includeMetadata && g.sourceKind != "") = true
  · rw [hm]
    simp [Json.objLookup, List.find?_append]
  · rw [Bool.not_eq_true] at hm
    rw [hm]
    simp [Json.objLookup]

/-! ## Claim C8 -/

/-- C8: the export record of an edge carries the `properties` key iff the edge
has at least one property; when present its value is exactly the property
map, and with zero properties the key is absent (never an empty object). -/
theorem C8_edge_properties_key (e : Edge) :
    (e.ToDict).objLookup "properties" =
      (if 0 < e.properties.ToDict.length then
         some (.obj e.properties.ToDict)
       else none) := by
  unfold Edge.ToDict
  by_cases hp : 0 < e.properties.ToDict.length
  · rw [if_pos hp, if_pos hp]
    simp [Json.objLookup, List.find?_append]
  · rw [if_neg hp, if_neg hp]
    simp [Json.objLookup]

/-! ## Claim C9 -/

/-- C9: for every graph containing node x and every depth bound k ≥ 0,
`FindPaths(x, x, k)` returns exactly the single trivial path `[x]`. -/
theorem C9_trivial_path (g : OpenGraph) (x : String) (k : Int)
    (hx : (g.GetNode x).isSome = true) (_hk : 0 ≤ k) :
    g.FindPaths x x k = some [[x]] := by
  unfold OpenGraph.FindPaths
  rw [if_neg (by simp [hx]), if_neg (by simp [hx]), if_pos (by simp)]

/-- C9 witness: `FindPaths("a", "a", 0)` on the pair graph is `[["a"]]`. -/
theorem C9_witness :
    ((gPair.GetNode "a").isSome = true ∧ (0 : Int) ≤ 0) ∧
    gPair.FindPaths "a" "a" 0 = some [["a"]] :=
  ⟨⟨rfl, le_refl 0⟩, C9_trivial_path gPair "a" 0 rfl (le_refl 0)⟩

/-! ## BFS soundness machinery -/

/-- The empty-queue equation of the BFS loop. -/
theorem bfsLoop_nil (g : OpenGraph) (endID : String) (maxDepth : Int)
    (paths : List (List String)) (visited : List String) :
    bfsLoop g endID maxDepth paths visited [] = paths := by
  rw [bfsLoop.eq_def]

/-- The step equation of the BFS loop when the head path is within depth. -/
theorem bfsLoop_cons_le (g : OpenGraph) (endID : String) (maxDepth : Int)
    (paths : List (List String)) (visited : List String)
    (cur : String × List String) (rest : List (String × List String))
    (h : (cur.2.length : Int) ≤ maxDepth) :
    bfsLoop g endID maxDepth paths visited (cur :: rest) =
      bfsLoop g endID maxDepth
        ((g.GetEdgesFromNode cur.1).foldl (processEdge endID cur.2)
          (paths, visited, rest)).1
        ((g.GetEdgesFromNode cur.1).foldl (processEdge endID cur.2)
          (paths, visited, rest)).2.1
        ((g.GetEdgesFromNode cur.1).foldl (processEdge endID cur.2)
          (paths, visited, rest)).2.2 := by
  rw [bfsLoop.eq_def]
  simp only [if_pos h]

/-- The exit equation of the BFS loop when the head path exceeds the depth. -/
theorem bfsLoop_cons_gt (g : OpenGraph) (endID : String) (maxDepth : Int)
    (paths : List (List String)) (visited : List String)
    (cur : String × List String) (rest : List (String × List String))
    (h : ¬((cur.2.length : Int) ≤ maxDepth)) :
    bfsLoop g endID maxDepth paths visited (cur :: rest) = paths := by
  rw [bfsLoop.eq_def]
  simp only [if_neg h]

/-- An edge of the graph yields `hasEdge` between its endpoints. -/
theorem hasEdge_of_mem (g : OpenGraph) (e : Edge) (he : e ∈ g.edges) :
    g.hasEdge e.startNodeID e.endNodeID = true := by
  unfold OpenGraph.hasEdge
  rw [List.any_eq_true]
  exact ⟨e, he, by simp⟩

/-- A nonempty list keeps its head under appending. -/
theorem head_append_some {α : Type} (l l2 : List α) (a : α)
    (h : l.head? = some a) : (l ++ l2).head? = some a := by
  cases l with
  | nil => cases h
  | cons x xs => simpa using h

/-- A chain ending at a extended through an edge a → b is a chain. -/
theorem isChain_append (g : OpenGraph) :
    ∀ (p : List String) (a b : String), IsChain g p = true →
      p.getLast? = some a → g.hasEdge a b = true →
      IsChain g (p ++ [b]) = true := by
  intro p
  induction p with
  | nil =>
    intro a b _ hl _
    cases hl
  | cons x rest ih =>
    intro a b hc hl he
    cases rest with
    | nil =>
      simp only [List.getLast?_singleton, Option.some.injEq] at hl
      subst hl
      simp only [List.cons_append, List.nil_append]
      simp [IsChain, he]
    | cons y rest2 =>
      rw [List.getLast?_cons_cons] at hl
      simp only [IsChain, Bool.and_eq_true] at hc
      have hrec := ih a b hc.2 hl he
      simp only [List.cons_append] at hrec ⊢
      simp only [IsChain, Bool.and_eq_true]
      exact ⟨hc.1, hrec⟩

/-- The inner `for` loop of `FindPaths` preserves the result and queue
invariants, and only grows the visited set. -/
theorem processFold_inv (g : OpenGraph) (s endID : String) (maxDepth : Int)
    (curID : String) (curPath : List String)
    (hchain : IsChain g curPath = true) (hhead : curPath.head? = some s)
    (hlast : curPath.getLast? = some curID) (hnodup : curPath.Nodup)
    (hlen : (curPath.length : Int) ≤ maxDepth) :
    ∀ (es : List Edge), (∀ e ∈ es, e ∈ g.edges ∧ e.startNodeID = curID) →
    ∀ (st : List (List String) × List String × List (String × List String)),
      (∀ p ∈ st.1, GoodPath g s endID maxDepth p) →
      (∀ q ∈ st.2.2, QueueInv g s st.2.1 q) →
      (∀ x ∈ curPath, x ∈ st.2.1) →
      (∀ p ∈ (es.foldl (processEdge endID curPath) st).1,
        GoodPath g s endID maxDepth p) ∧
      (∀ q ∈ (es.foldl (processEdge endID curPath) st).2.2,
        QueueInv g s (es.foldl (processEdge endID curPath) st).2.1 q) ∧
      (∀ x ∈ st.2.1, x ∈ (es.foldl (processEdge endID curPath) st).2.1) := by
  intro es
  induction es with
  | nil =>
    intro _ st hp hq hcur
    exact ⟨hp, hq, fun x hx => hx⟩
  | cons e es ih =>
    intro hes st hp hq hcur
    have hee := hes e (List.mem_cons_self e es)
    have hes' : ∀ x ∈ es, x ∈ g.edges ∧ x.startNodeID = curID :=
      fun x hx => hes x (List.mem_cons_of_mem e hx)
    simp only [List.foldl_cons]
    -- invariants for the single-step state
    have hstep :
        (∀ p ∈ (processEdge endID curPath st e).1, GoodPath g s endID maxDepth p) ∧
        (∀ q ∈ (processEdge endID curPath st e).2.2,
          QueueInv g s (processEdge endID curPath st e).2.1 q) ∧
        (∀ x ∈ st.2.1, x ∈ (processEdge endID curPath st e).2.1) ∧
        (∀ x ∈ curPath, x ∈ (processEdge endID curPath st e).2.1) := by
      unfold processEdge
      by_cases hvis : e.endNodeID ∈ st.2.1
      · rw [if_pos hvis]
        exact ⟨hp, hq, fun x hx => hx, hcur⟩
      · rw [if_neg hvis]
        have hnotcur : e.endNodeID ∉ curPath :=
          fun hmem => hvis (hcur _ hmem)
        have hchain' : IsChain g (curPath ++ [e.endNodeID]) = true :=
          isChain_append g curPath curID e.endNodeID hchain hlast
            (hee.2 ▸ hasEdge_of_mem g e hee.1)
        have hhead' : (curPath ++ [e.endNodeID]).head? = some s :=
          head_append_some curPath [e.endNodeID] s hhead
        have hlast' : (curPath ++ [e.endNodeID]).getLast? = some e.endNodeID := by
          simp
        have hnodup' : (curPath ++ [e.endNodeID]).Nodup := by
          simp [List.nodup_append, hnodup, hnotcur]
        have hlen' : ((curPath ++ [e.endNodeID]).length : Int) ≤ maxDepth + 1 := by
          simp only [List.length_append, List.length_cons, List.length_nil]
          push_cast
          omega
        by_cases hend : e.endNodeID = endID
        · rw [if_pos hend]
          refine ⟨?_, hq, fun x hx => hx, hcur⟩
          intro p hpm
          rcases List.mem_append.mp hpm with hold | hnew
          · exact hp p hold
          · rw [List.mem_singleton.mp hnew]
            exact ⟨hchain', hhead', hend ▸ hlast', hnodup', hlen'⟩
        · rw [if_neg hend]
          refine ⟨hp, ?_, fun x hx => List.mem_append_left _ hx,
            fun x hx => List.mem_append_left _ (hcur x hx)⟩
          intro q hqm
          rcases List.mem_append.mp hqm with hold | hnew
          · have hi := hq q hold
            exact ⟨hi.1, hi.2.1, hi.2.2.1, hi.2.2.2.1,
              fun x hx => List.mem_append_left _ (hi.2.2.2.2 x hx)⟩
          · rw [List.mem_singleton.mp hnew]
            refine ⟨hchain', hhead', hlast', hnodup', ?_⟩
            intro x hx
            rcases List.mem_append.mp hx with hc | hx1
            · exact List.mem_append_left _ (hcur x hc)
            · rw [List.mem_singleton.mp hx1]
              exact List.mem_append_right _ (List.mem_singleton_self _)
    have hrec := ih hes' (processEdge endID curPath st e)
      hstep.1 hstep.2.1 hstep.2.2.2
    exact ⟨hrec.1, hrec.2.1, fun x hx => hrec.2.2 x (hstep.2.2.1 x hx)⟩

/-- Soundness of the BFS loop: under the result and queue invariants every
path in the loop output is a good path from s to endID. -/
theorem bfsLoop_sound (g : OpenGraph) (s endID : String) (maxDepth : Int) :
    ∀ (paths : List (List String)) (visited : List String)
      (queue : List (String × List String)),
      (∀ p ∈ paths, GoodPath g s endID maxDepth p) →
      (∀ q ∈ queue, QueueInv g s visited q) →
      ∀ p ∈ bfsLoop g endID maxDepth paths visited queue,
        GoodPath g s endID maxDepth p := by
  refine fun paths visited queue =>
    bfsLoop.induct g endID maxDepth
      (fun paths visited queue =>
        (∀ p ∈ paths, GoodPath g s endID maxDepth p) →
        (∀ q ∈ queue, QueueInv g s visited q) →
        ∀ p ∈ bfsLoop g endID maxDepth paths visited queue,
          GoodPath g s endID maxDepth p)
      ?_ ?_ ?_ paths visited queue
  · intro paths visited hp _ p hmem
    rw [bfsLoop_nil] at hmem
    exact hp p hmem
  · intro paths visited cur rest hguard st ih hp hq p hmem
    rw [bfsLoop_cons_le g endID maxDepth paths visited cur rest hguard] at hmem
    have hcurinv := hq cur (List.mem_cons_self cur rest)
    have hes : ∀ e ∈ g.GetEdgesFromNode cur.1,
        e ∈ g.edges ∧ e.startNodeID = cur.1 := by
      intro e he
      unfold OpenGraph.GetEdgesFromNode at he
      have h1 := List.mem_of_mem_filter he
      have h2 := (List.mem_filter.mp he).2
      rw [beq_iff_eq] at h2
      exact ⟨h1, h2⟩
    have hinv := processFold_inv g s endID maxDepth cur.1 cur.2
      hcurinv.1 hcurinv.2.1 hcurinv.2.2.1 hcurinv.2.2.2.1 hguard
      (g.GetEdgesFromNode cur.1) hes (paths, visited, rest) hp
      (fun q hqm => hq q (List.mem_cons_of_mem cur hqm))
      hcurinv.2.2.2.2
    exact ih hinv.1 hinv.2.1 p hmem
  · intro paths visited cur rest hguard hp hq p hmem
    rw [bfsLoop_cons_gt g endID maxDepth paths visited cur rest hguard] at hmem
    exact hp p hmem

/-! ## Claim C10 -/

/-- C10: when both endpoints are registered and distinct, every path that
`FindPaths` returns begins with startID, ends with endID, repeats no node
id, and holds at most maxDepth + 1 ids. -/
theorem C10_path_properties (g : OpenGraph) (startID endID : String)
    (maxDepth : Int) (ps : List (List String))
    (hs : (g.GetNode startID).isSome = true)
    (he : (g.GetNode endID).isSome = true)
    (hne : startID ≠ endID)
    (hres : g.FindPaths startID endID maxDepth = some ps) :
    ∀ p ∈ ps, p.head? = some startID ∧ p.getLast? = some endID ∧
      p.Nodup ∧ (p.length : Int) ≤ maxDepth + 1 := by
  unfold OpenGraph.FindPaths at hres
  rw [if_neg (by simp [hs]), if_neg (by simp [he]),
    if_neg (by simp [hne])] at hres
  have hsound := bfsLoop_sound g startID endID maxDepth [] [startID]
    [(startID, [startID])] (by intro p hp; cases hp) ?_
  · intro p hpm
    have hps : p ∈ bfsLoop g endID maxDepth [] [startID]
        [(startID, [startID])] := by
      by_cases hemp : (bfsLoop g endID maxDepth [] [startID]
          [(startID, [startID])]).isEmpty = true
      · rw [if_pos hemp] at hres
        cases hres
      · rw [if_neg hemp] at hres
        rw [← Option.some.inj hres] at hpm
        exact hpm
    have hg := hsound p hps
    exact ⟨hg.2.1, hg.2.2.1, hg.2.2.2.1, hg.2.2.2.2⟩
  · intro q hqm
    rw [List.mem_singleton.mp hqm]
    refine ⟨rfl, rfl, rfl, List.nodup_singleton startID, ?_⟩
    intro x hx
    exact hx

/-- C10 witness: on the chain graph a → b → c, `FindPaths("a","c",2)`
returns `[["a","b","c"]]` and the path satisfies all four properties. -/
theorem C10_witness :
    ((gChain.GetNode "a").isSome = true ∧ (gChain.GetNode "c").isSome = true ∧
     "a" ≠ "c" ∧ gChain.FindPaths "a" "c" 2 = some [["a", "b", "c"]]) ∧
    (∀ p ∈ [["a", "b", "c"]], p.head? = some "a" ∧ p.getLast? = some "c" ∧
      p.Nodup ∧ (p.length : Int) ≤ 2 + 1) := by
  have hfp : gChain.FindPaths "a" "c" 2 = some [["a", "b", "c"]] := by
    simp only [OpenGraph.FindPaths, OpenGraph.GetNode, gChain]
    norm_num
    simp [bfsLoop.eq_def, OpenGraph.GetEdgesFromNode, processEdge, gChain, mkNode]
  exact ⟨⟨rfl, rfl, by decide, hfp⟩,
    C10_path_properties gChain "a" "c" 2 [["a", "b", "c"]] rfl rfl
      (by decide) hfp⟩

/-! ## Claim C2 -/

/-- C2 counterexample: in the two-node, zero-edge graph both endpoints are
registered and distinct and no path can exist, yet `FindPaths` returns the
nil (absent) marker `none` — identical to the value returned for the unknown
endpoint "zz" — and not a present-but-empty sequence of paths. -/
theorem C2_counterexample :
    (gPair.GetNode "a").isSome = true ∧ (gPair.GetNode "b").isSome = true ∧
    "a" ≠ "b" ∧ gPair.edges = [] ∧
    gPair.FindPaths "a" "b" 5 = none ∧
    gPair.FindPaths "a" "zz" 5 = none ∧
    gPair.FindPaths "a" "b" 5 ≠ some ([] : List (List String)) := by
  have hfp : gPair.FindPaths "a" "b" 5 = none := by
    simp [OpenGraph.FindPaths, OpenGraph.GetNode, gPair, bfsLoop.eq_def,
      OpenGraph.GetEdgesFromNode, mkNode]
  exact ⟨rfl, rfl, by decide, rfl, hfp, rfl, by rw [hfp]; exact fun h => by cases h⟩

/-- C2 (amended): when both endpoint ids are registered and distinct but no
edge-path of at most maxDepth + 1 ids runs from startID to endID,
`FindPaths` returns the nil slice `none` — the same absent marker it returns
for an unknown endpoint id, not a distinct present-but-empty sequence. -/
theorem C2_no_path_returns_nil (g : OpenGraph) (startID endID : String)
    (maxDepth : Int)
    (hs : (g.GetNode startID).isSome = true)
    (he : (g.GetNode endID).isSome = true)
    (hne : startID ≠ endID)
    (hnopath : ∀ p : List String, IsChain g p = true →
      p.head? = some startID → p.getLast? = some endID →
      ¬((p.length : Int) ≤ maxDepth + 1)) :
    g.FindPaths startID endID maxDepth = none := by
  unfold OpenGraph.FindPaths
  rw [if_neg (by simp [hs]), if_neg (by simp [he]), if_neg (by simp [hne])]
  by_cases hemp : (bfsLoop g endID maxDepth [] [startID]
      [(startID, [startID])]).isEmpty = true
  · rw [if_pos hemp]
  · exfalso
    rw [Bool.not_eq_true, List.isEmpty_eq_false_iff_exists_mem] at hemp
    obtain ⟨p, hpm⟩ := hemp
    have hsound := bfsLoop_sound g startID endID maxDepth [] [startID]
      [(startID, [startID])] (by intro p hp; cases hp) ?_ p hpm
    · exact hnopath p hsound.1 hsound.2.1 hsound.2.2.1 hsound.2.2.2.2
    · intro q hqm
      rw [List.mem_singleton.mp hqm]
      refine ⟨rfl, rfl, rfl, List.nodup_singleton startID, ?_⟩
      intro x hx
      exact hx

/-- C2 witness: the pair graph has no edges, so no chain joins "a" to "b",
and `FindPaths("a","b",5)` is the nil marker. -/
theorem C2_witness :
    ((gPair.GetNode "a").isSome = true ∧ (gPair.GetNode "b").isSome = true ∧
     "a" ≠ "b") ∧ gPair.FindPaths "a" "b" 5 = none := by
  refine ⟨⟨rfl, rfl, by decide⟩, ?_⟩
  apply C2_no_path_returns_nil gPair "a" "b" 5 rfl rfl (by decide)
  intro p hc hh hl _
  cases p with
  | nil => cases hh
  | cons x rest =>
    cases rest with
    | nil =>
      simp only [List.head?_cons, Option.some.injEq] at hh
      simp only [List.getLast?_singleton, Option.some.injEq] at hl
      rw [hh] at hl
      exact absurd hl (by decide)
    | cons y rest2 =>
      unfold IsChain OpenGraph.hasEdge at hc
      simp [gPair] at hc

/-! ## Import/export round-trip machinery (claim C1) -/

/-- Parsing an encoded kinds list recovers the kinds. -/
theorem parseKinds_map (ks : List String) :
    parseKinds (ks.map Json.str) = some ks := by
  induction ks with
  | nil => rfl
  | cons k ks ih =>
    simp [parseKinds, parseString, ih]

/-- Parsing an exported node record recovers the node. -/
theorem parseNodeRec_toDict (n : Node) :
    parseNodeRec (Node.ToDict n) = some n := by
  unfold parseNodeRec Node.ToDict Json.objLookup
  simp [parseString, parseKinds_map, Properties.ToDict]

/-- Parsing an exported edge record recovers the edge. -/
theorem parseEdgeRec_toDict (e : Edge) :
    parseEdgeRec (Edge.ToDict e) = some e := by
  unfold parseEdgeRec Edge.ToDict Json.objLookup
  by_cases hp : 0 < e.properties.ToDict.length
  · rw [if_pos hp]
    simp [parseString, parseEndpoint, Json.objLookup]
    rfl
  · rw [if_neg hp]
    have hnil : e.properties = [] := by
      unfold Properties.ToDict at hp
      cases hprops : e.properties with
      | nil => rfl
      | cons a l => rw [hprops] at hp; simp at hp
    simp [parseString, parseEndpoint, Json.objLookup, hnil]
    rw [← hnil]

/-- Parsing an encoded list element-wise recovers the list. -/
theorem parseList_map {α : Type} (f : Json → Option α) (enc : α → Json)
    (l : List α) (h : ∀ a ∈ l, f (enc a) = some a) :
    parseList f (l.map enc) = some l := by
  induction l with
  | nil => rfl
  | cons a l ih =>
    simp only [List.map_cons, parseList, h a (List.mem_cons_self a l),
      Option.bind_eq_bind, Option.some_bind,
      ih (fun x hx => h x (List.mem_cons_of_mem a hx))]
    rfl

/-- Registering a list of id-distinct nodes into a sourceKind-less graph
appends exactly their bindings to the nodes map. -/
theorem foldl_addNode (ns : List Node) :
    ∀ (pre : List (String × Node)),
    ((pre ++ ns.map (fun n => (n.id, n))).map Prod.fst).Nodup →
    (ns.foldl (fun g n => (g.AddNode n).2) (OpenGraph.mk pre [] "")) =
      OpenGraph.mk (pre ++ ns.map (fun n => (n.id, n))) [] "" := by
  induction ns with
  | nil =>
    intro pre _
    simp
  | cons n ns ih =>
    intro pre h
    have hmaps : ((pre ++ (n.id, n) :: ns.map (fun n => (n.id, n))).map
        Prod.fst) = pre.map Prod.fst ++
          n.id :: (ns.map (fun n => (n.id, n))).map Prod.fst := by
      simp
    simp only [List.map_cons] at h ⊢
    rw [hmaps] at h
    rw [List.nodup_append] at h
    have hnotpre : n.id ∉ pre.map Prod.fst :=
      fun hmem => h.2.2 hmem (List.mem_cons_self _ _)
    have hfind : pre.find? (fun p => p.1 == n.id) = none := by
      rw [List.find?_eq_none]
      intro p hp
      simp only [beq_iff_eq]
      intro hpe
      exact hnotpre (hpe ▸ List.mem_map_of_mem Prod.fst hp)
    simp only [List.foldl_cons]
    have hstep : ((OpenGraph.mk pre [] "").AddNode n).2 =
        OpenGraph.mk (pre ++ [(n.id, n)]) [] "" := by
      unfold OpenGraph.AddNode OpenGraph.GetNode
      rw [if_neg (by simp [hfind])]
      have hcond : (("" : String) != "" && !(n.HasKind "")) = false := by
        simp
      rw [hcond]
      simp only [Bool.false_eq_true, if_false]
      unfold OpenGraph.AddNodeWithoutValidation
      rw [mapSet_absent pre n.id n hfind]
    rw [hstep]
    have hre : (pre ++ [(n.id, n)]) ++ ns.map (fun n => (n.id, n)) =
        pre ++ (n.id, n) :: ns.map (fun n => (n.id, n)) := by
      simp
    have hih := ih (pre ++ [(n.id, n)]) (by rw [hre]; rw [hmaps, List.nodup_append]; exact h)
    rw [hih, hre]

/-- Registering a list of pairwise-distinct, endpoint-valid edges appends
exactly those edges to the edge list. -/
theorem foldl_addEdge (es : List Edge) :
    ∀ (gnodes : List (String × Node)) (pre : List Edge) (sk : String),
    (∀ e ∈ es,
      ((OpenGraph.mk gnodes pre sk).GetNode e.startNodeID).isSome = true ∧
      ((OpenGraph.mk gnodes pre sk).GetNode e.endNodeID).isSome = true) →
    List.Pairwise (fun a b => a.Equal b = false) (pre ++ es) →
    (es.foldl (fun g e => (g.AddEdge e).2) (OpenGraph.mk gnodes pre sk)) =
      OpenGraph.mk gnodes (pre ++ es) sk := by
  induction es with
  | nil =>
    intro gnodes pre sk _ _
    simp
  | cons e es ih =>
    intro gnodes pre sk hend hpw
    have hnodup : ∀ x ∈ pre, x.Equal e = false := by
      intro x hx
      rw [List.pairwise_append] at hpw
      exact hpw.2.2 x hx e (List.mem_cons_self e es)
    have hstep : ((OpenGraph.mk gnodes pre sk).AddEdge e).2 =
        OpenGraph.mk gnodes (pre ++ [e]) sk := by
      unfold OpenGraph.AddEdge
      rw [if_neg (by simp [(hend e (List.mem_cons_self e es)).1]),
        if_neg (by simp [(hend e (List.mem_cons_self e es)).2])]
      rw [if_neg]
      · rfl
      · simp only [List.any_eq_true, not_exists, not_and]
        intro x hx
        simp [hnodup x hx]
    simp only [List.foldl_cons, hstep]
    have hre : (pre ++ [e]) ++ es = pre ++ e :: es := by simp
    have hih := ih gnodes (pre ++ [e]) sk
      (fun x hx => hend x (List.mem_cons_of_mem e hx))
      (by rw [hre]; exact hpw)
    rw [hih, hre]

/-- The structural inverse law: importing the metadata-carrying export of a
graph that satisfies the container invariants reproduces the graph. -/
theorem import_export (g : OpenGraph) (hwf : g.NodesWF)
    (hend : ∀ e ∈ g.edges, (g.GetNode e.startNodeID).isSome = true ∧
                           (g.GetNode e.endNodeID).isSome = true)
    (hdup : List.Pairwise (fun a b => a.Equal b = false) g.edges) :
    importJson (g.ExportJSON true) = some g := by
  have hbind : (g.nodeValues).map (fun n => (n.id, n)) = g.nodes := by
    unfold OpenGraph.nodeValues
    rw [List.map_map]
    have : ∀ p ∈ g.nodes, ((fun n => (n.id, n)) ∘ fun p => p.2) p =
        (fun p => p) p := by
      intro p hp
      simp only [Function.comp]
      have := hwf.2 p hp
      rw [← this]
    rw [List.map_congr_left this]
    simp
  have hnodesfold :
      ((g.nodeValues).foldl (fun g n => (g.AddNode n).2) (NewOpenGraph "")) =
        OpenGraph.mk g.nodes [] "" := by
    have := foldl_addNode g.nodeValues []
      (by rw [List.nil_append, hbind]; exact hwf.1)
    rw [List.nil_append, hbind] at this
    exact this
  have hedgesfold :
      (g.edges.foldl (fun g e => (g.AddEdge e).2) (OpenGraph.mk g.nodes [] "")) =
        OpenGraph.mk g.nodes g.edges "" := by
    have := foldl_addEdge g.edges g.nodes [] ""
      (fun e he => hend e he) (by rw [List.nil_append]; exact hdup)
    rw [List.nil_append] at this
    exact this
  unfold importJson OpenGraph.ExportJSON
  by_cases hsk : (true && g.sourceKind != "") = true
  · rw [if_pos hsk]
    simp only [Json.objLookup, List.find?_append]
    simp [Json.objLookup, parseList_map parseNodeRec Node.ToDict _
        (fun n _ => parseNodeRec_toDict n),
      parseList_map parseEdgeRec Edge.ToDict _
        (fun e _ => parseEdgeRec_toDict e),
      hnodesfold, hedgesfold]
  · rw [Bool.not_eq_true] at hsk
    rw [hsk]
    simp only [Bool.false_eq_true, if_false, List.append_nil]
    have hskeq : g.sourceKind = "" := by
      simpa using hsk
    simp [Json.objLookup, parseList_map parseNodeRec Node.ToDict _
        (fun n _ => parseNodeRec_toDict n),
      parseList_map parseEdgeRec Edge.ToDict _
        (fun e _ => parseEdgeRec_toDict e),
      hnodesfold, hedgesfold, hskeq]
    rw [← hskeq]

/-! ## Claim C1 -/

/-- C1 counterexample: the duplicate-edge graph `gDup` (a state the Go API
reaches through `AddEdgeWithoutValidation`) exports two identical edge
records, and importing that document keeps only one of them, so the
round-tripped edge count (1) differs from the original (2). -/
theorem C1_counterexample :
    Option.map OpenGraph.GetEdgeCount (importJson (gDup.ExportJSON true)) =
      some 1 ∧
    gDup.GetEdgeCount = 2 := by
  constructor
  · rfl
  · rfl

/-- C1 (amended): for every graph satisfying the documented container
invariants — the nodes map is a faithful Go map keyed by each node id,
every stored edge references registered endpoints, and no two stored edges
are triple-equal — importing the document exported with metadata included
yields a graph with the same node count, the same edge count, the same
sourceKind, and node/edge sets equal to the original under Node id
equality and Edge (start, end, kind) equality. -/
theorem C1_roundtrip (g : OpenGraph) (hwf : g.NodesWF)
    (hend : ∀ e ∈ g.edges, (g.GetNode e.startNodeID).isSome = true ∧
                           (g.GetNode e.endNodeID).isSome = true)
    (hdup : List.Pairwise (fun a b => a.Equal b = false) g.edges) :
    ∃ g', importJson (g.ExportJSON true) = some g' ∧
      g'.GetNodeCount = g.GetNodeCount ∧
      g'.GetEdgeCount = g.GetEdgeCount ∧
      g'.sourceKind = g.sourceKind ∧
      (∀ n ∈ g'.nodeValues, ∃ m ∈ g.nodeValues, n.Equal m = true) ∧
      (∀ m ∈ g.nodeValues, ∃ n ∈ g'.nodeValues, m.Equal n = true) ∧
      (∀ e ∈ g'.edges, ∃ f ∈ g.edges, e.Equal f = true) ∧
      (∀ f ∈ g.edges, ∃ e ∈ g'.edges, f.Equal e = true) := by
  refine ⟨g, import_export g hwf hend hdup, rfl, rfl, rfl, ?_, ?_, ?_, ?_⟩
  · intro n hn
    exact ⟨n, hn, by simp [Node.Equal]⟩
  · intro m hm
    exact ⟨m, hm, by simp [Node.Equal]⟩
  · intro e he
    exact ⟨e, he, by simp [Edge.Equal]⟩
  · intro f hf
    exact ⟨f, hf, by simp [Edge.Equal]⟩

/-- C1 witness: the well-formed sample graph `gClean` satisfies all three
container invariants and round-trips through export and import. -/
theorem C1_witness :
    (gClean.NodesWF ∧
     (∀ e ∈ gClean.edges,
        (gClean.GetNode e.startNodeID).isSome = true ∧
        (gClean.GetNode e.endNodeID).isSome = true) ∧
     List.Pairwise (fun a b => a.Equal b = false) gClean.edges) ∧
    (∃ g', importJson (gClean.ExportJSON true) = some g' ∧
      g'.GetNodeCount = gClean.GetNodeCount ∧
      g'.GetEdgeCount = gClean.GetEdgeCount ∧
      g'.sourceKind = gClean.sourceKind ∧
      (∀ n ∈ g'.nodeValues, ∃ m ∈ gClean.nodeValues, n.Equal m = true) ∧
      (∀ m ∈ gClean.nodeValues, ∃ n ∈ g'.nodeValues, m.Equal n = true) ∧
      (∀ e ∈ g'.edges, ∃ f ∈ gClean.edges, e.Equal f = true) ∧
      (∀ f ∈ gClean.edges, ∃ e ∈ g'.edges, f.Equal e = true)) :=
  ⟨⟨by decide, by decide, by decide⟩,
   C1_roundtrip gClean (by decide) (by decide) (by decide)⟩

end Gopengraph
